import Mathlib

set_option linter.unusedVariables false

/-!
# Verification of the transcribe2 processing pipeline core

A shallow embedding, in Lean, of the pieces of the `transcribe2` Electron
application that the specification talks about:

* the text chunker `splitTextIntoChunks` and the hierarchical summarizer
  (`src/main/strands-agent-manager.ts`),
* the external process runner for the local separation / recognition stages
  (`PythonAudioProcessingManager`),
* the cloud job poller `pollJobCompletion`
  (`src/main/aws-audio-processing-manager.ts`).

JS strings are modelled as `List Char` where character positions matter and
as `String` elsewhere; wall-clock readings (`Date.now()`), the AWS clients,
the filesystem and the Python subprocesses are abstracted into explicit
parameters (oracle functions and outcome values), so every definition stays
executable.  The file is organised as definitions first, then theorems.
-/

namespace Transcribe2

/-! ## Text chunker: `splitTextIntoChunks(text, chunkSize)`
(`src/main/strands-agent-manager.ts`, lines 96-129).

The JS code scans left to right: `endIndex = min(startIndex + chunkSize,
text.length)`; when `endIndex` is not already the end of the text it looks
for the earliest of `。`, `！`, `？` at or after `endIndex` (via
`String.indexOf`), takes the position one past it, and falls back to the
hard boundary when nothing is found or the terminator lies further than
`chunkSize / 5` past `endIndex`. -/

/-- Helper for `jsIndexOf`: first position `≥ pos` of `ch` in `l`, where `l`
is the tail of the text starting at position `pos`; `-1` when absent. -/
def jsIndexOfAux (l : List Char) (ch : Char) (pos : Nat) : Int :=
  match l with
  | [] => -1
  | a :: rest => if a = ch then (pos : Int) else jsIndexOfAux rest ch (pos + 1)

/-- JS `text.indexOf(ch, start)`: position of the first occurrence of `ch` at
or after `start`, or `-1` when there is none. -/
def jsIndexOf (text : List Char) (ch : Char) (start : Nat) : Int :=
  jsIndexOfAux (text.drop start) ch start

/-- One step of the `sentenceEnd` selection of lines 111-114: a found
terminator position `n` replaces the current candidate `cur` if `cur` is
still `-1` or `n` is strictly smaller; the stored value is `n + 1`. -/
def pickStep (n cur : Int) : Int :=
  if n ≠ -1 ∧ (cur = -1 ∨ n < cur) then n + 1 else cur

/-- The full `sentenceEnd` selection over the three terminator searches. -/
def pickSentenceEnd (nS nE nQ : Int) : Int :=
  pickStep nQ (pickStep nE (if nS ≠ -1 then nS + 1 else -1))

/-- End position of the chunk starting at `start` (lines 102-121).  The JS
guard `sentenceEnd > endIndex + chunkSize / 5` compares against the exact
rational `chunkSize / 5`; we render it as `5 * sentenceEnd > 5 * endIndex +
chunkSize`, the same comparison with both sides scaled by 5. -/
def chunkEnd (text : List Char) (chunkSize start : Nat) : Nat :=
  let endIndex := min (start + chunkSize) text.length
  if endIndex < text.length then
    let se := pickSentenceEnd (jsIndexOf text '。' endIndex)
      (jsIndexOf text '！' endIndex) (jsIndexOf text '？' endIndex)
    if se = -1 ∨ 5 * se > 5 * (endIndex : Int) + (chunkSize : Int) then endIndex
    else se.toNat
  else endIndex

/-- JS `text.substring(s, e)` for `s ≤ e ≤ text.length` (the only way the
chunker calls it). -/
def jsSubstring (text : List Char) (s e : Nat) : List Char :=
  (text.drop s).take (e - s)

/-- The chunking loop of lines 100-126, with explicit fuel.  Each iteration
pushes `text.substring(startIndex, endIndex)` and continues from `endIndex`.
For a positive `chunkSize` every iteration strictly advances, so
`text.length + 1` units of fuel always suffice (see `splitGo_flatten`); with
`chunkSize = 0` the JS loop can diverge, which the model renders as running
out of fuel. -/
def splitGo (text : List Char) (chunkSize : Nat) : Nat → Nat → List (List Char)
  | 0, _ => []
  | fuel + 1, start =>
    if start < text.length then
      jsSubstring text start (chunkEnd text chunkSize start) ::
        splitGo text chunkSize fuel (chunkEnd text chunkSize start)
    else []

/-- The chunker `splitTextIntoChunks(text, chunkSize)`. -/
def splitTextIntoChunks (text : List Char) (chunkSize : Nat) : List (List Char) :=
  splitGo text chunkSize (text.length + 1) 0

/-! ## Hierarchical text processor: `summarizeText` / `processLargeText`
(`src/main/strands-agent-manager.ts`, lines 132-231).

Wall-clock fields (`processingTime`, built from `Date.now()`) are
environment-dependent and omitted from the result record; the Bedrock
network call is abstracted as an `Oracle` returning the model's answer. -/

inductive SummarizationLength
  | short
  | medium
  | long
  deriving DecidableEq

structure SummarizationResult where
  originalText : List Char
  summary : List Char
  modelUsed : String
  deriving DecidableEq

/-- Events observable while the summarizer runs: a call to the text chunker,
a Strands-agent invocation, or a direct Bedrock model invocation.  A backend
call is identified by the transcript text its prompt embeds
(`getSummarizationPrompt` wraps the text in fixed instructions plus the
current date). -/
inductive TraceEv
  | splitCall (text : List Char) (chunkSize : Nat)
  | agentCall (text : List Char)
  | directCall (text : List Char) (len : SummarizationLength)
  deriving DecidableEq

/-- The model's textual answer to a direct Bedrock invocation, as a function
of the transcript text and requested length (network abstracted). -/
def Oracle := List Char → SummarizationLength → List Char

def defaultModelId : String := "us.anthropic.claude-3-7-sonnet-20250219-v1:0"

/-- Method `summarizeWithBedrockDirect` (lines 264-318): one direct model call; the
result is labelled `Amazon Bedrock (<modelId>)`. -/
def summarizeWithBedrockDirect (oracle : Oracle) (text : List Char)
    (len : SummarizationLength) : SummarizationResult × List TraceEv :=
  ({ originalText := text, summary := oracle text len,
     modelUsed := "Amazon Bedrock (" ++ defaultModelId ++ ")" },
   [.directCall text len])

def chunkSummarySep : List Char := "\n\n---\n\n".toList

def combinedLead : List Char :=
  "以下は長いテキストを分割して要約した結果です。これらの要約を元に、全体の要約を作成してください：\n\n".toList

def chunkedLabel : String := " (チャンク処理適用)"

/-- Method `processLargeText` (lines 132-176): direct call below 30000 characters,
otherwise chunk at 25000, summarize each chunk with the SHORT length, join
the chunk summaries and run one final direct call; the final `modelUsed` is
suffixed with the chunked-processing label. -/
def processLargeText (oracle : Oracle) (text : List Char)
    (len : SummarizationLength) : SummarizationResult × List TraceEv :=
  if text.length < 30000 then summarizeWithBedrockDirect oracle text len
  else
    let chunks := splitTextIntoChunks text 25000
    let chunkRuns := chunks.map fun c => summarizeWithBedrockDirect oracle c .short
    let combined := combinedLead ++
      List.intercalate chunkSummarySep (chunkRuns.map fun r => r.1.summary)
    let final := summarizeWithBedrockDirect oracle combined len
    ({ originalText := text, summary := final.1.summary,
       modelUsed := final.1.modelUsed ++ chunkedLabel },
     .splitCall text 25000 :: ((chunkRuns.map fun r => r.2).flatten ++ final.2))

/-- Method `summarizeText` (lines 179-231).  `agentOutcome` is the Strands-agent
behaviour: `some resp` when `invokeStrandsAgent` returns `resp`, `none` when
it throws (the code then falls back to the direct call).  The agent is tried
only when both `agentId` and `agentAliasId` are non-empty (JS truthiness). -/
def summarizeText (oracle : Oracle) (agentId agentAliasId : String)
    (agentOutcome : Option (List Char)) (text : List Char)
    (len : SummarizationLength) : SummarizationResult × List TraceEv :=
  if 30000 < text.length then processLargeText oracle text len
  else if agentId ≠ "" ∧ agentAliasId ≠ "" then
    match agentOutcome with
    | some resp =>
        ({ originalText := text, summary := resp,
           modelUsed := "Amazon Bedrock Strands Agent (" ++ agentId ++ ")" },
         [.agentCall text])
    | none =>
        let d := summarizeWithBedrockDirect oracle text len
        (d.1, .agentCall text :: d.2)
  else summarizeWithBedrockDirect oracle text len

/-- A 30000-character text, exactly at the spec's threshold. -/
def boundaryText : List Char := List.replicate 30000 'a'

/-! ## Bedrock request/response payload shapes
(`summarizeWithBedrockDirect`, lines 264-318, and
`createWeeklyReportWithBedrockDirect`, lines 473-528). -/

/-- The two request payload shapes named by the spec: the structured
anthropic-style `messages` form and the legacy `prompt`/`completion` form. -/
inductive RequestShape
  | messages
  | promptCompletion
  deriving DecidableEq

structure BedrockMessage where
  role : String
  content : List Char
  deriving DecidableEq

/-- A Bedrock `InvokeModel` request body in either of the two shapes the
spec describes.  The `promptBody` form exists so the shape selection claimed
by the spec is expressible; the source only ever constructs `messagesBody`. -/
inductive BedrockRequestBody
  | messagesBody (anthropicVersion : String) (maxTokens : Nat)
      (messages : List BedrockMessage)
  | promptBody (prompt : List Char)
  deriving DecidableEq

def shapeOf : BedrockRequestBody → RequestShape
  | .messagesBody _ _ _ => .messages
  | .promptBody _ => .promptCompletion

/-- JS `v || d` for an optional number (absence and `0` are falsy). -/
def jsOrNat (v : Option Nat) (d : Nat) : Nat :=
  match v with
  | some n => if n = 0 then d else n
  | none => d

/-- The request body built by `summarizeWithBedrockDirect` (lines 276-292):
always the anthropic `messages` shape, whatever `modelId` is configured (the
`modelId` only goes into the command's model field, never into the body). -/
def summarizeRequestBody (modelId : String) (prompt : List Char) :
    BedrockRequestBody :=
  .messagesBody "bedrock-2023-05-31" 4096 [⟨"user", prompt⟩]

/-- The request body built by `createWeeklyReportWithBedrockDirect`
(lines 486-504): `max_tokens` is `options.maxTokens || 4096`; the shape is
again `messages` for every `modelId` (`options.model || this.modelId`). -/
def weeklyReportRequestBody (modelId : String) (maxTokens : Option Nat)
    (prompt : List Char) : BedrockRequestBody :=
  .messagesBody "bedrock-2023-05-31" (jsOrNat maxTokens 4096) [⟨"user", prompt⟩]

structure ContentBlock where
  text : List Char
  deriving DecidableEq

/-- Parsed Bedrock response body: `content` (anthropic shape) and/or
`completion` (legacy shape), either possibly absent. -/
structure BedrockResponseBody where
  content : Option (List ContentBlock)
  completion : Option (List Char)
  deriving DecidableEq

/-- JS `v || d` for an optional string (absence and `""` are falsy). -/
def jsOrChars (v : Option (List Char)) (d : List Char) : List Char :=
  match v with
  | some s => if s = [] then d else s
  | none => d

/-- Summary extraction (lines 302-304): `content && content[0] ?
content[0].text : (completion || <error text>)`. -/
def extractSummary (resp : BedrockResponseBody) : List Char :=
  match resp.content with
  | some (c :: _) => c.text
  | _ => jsOrChars resp.completion "要約の生成中にエラーが発生しました".toList

/-- Report extraction (lines 512-514), same fallback with another default. -/
def extractReport (resp : BedrockResponseBody) : List Char :=
  match resp.content with
  | some (c :: _) => c.text
  | _ => jsOrChars resp.completion "Weekly Reportの生成中にエラーが発生しました".toList

/-! ## Local pipeline process runner: `PythonAudioProcessingManager`
(`separateAudio`, `transcribeAudio`, `processAudio`).

A subprocess run is abstracted by its observable outcome: either the spawn
failed (the `error` event fired) or the process closed with an exit code,
the raw stdout string, the newline-split token view of that stdout, and a
stderr string.  JSON parsing is abstracted into the token view `PyLine`: a
line either is skipped by the scan (blank after trimming, invalid JSON, or
scalar JSON, all of which make the loop `continue`) or parses to an object
whose JS-truthiness-relevant fields are precomputed in `PyJson`.  Numeric
timestamps are carried as `Int` (no arithmetic is ever performed on them). -/

structure TranscriptionSegment where
  startTime : Int
  endTime : Int
  text : String
  confidence : Option Int
  deriving DecidableEq

structure TranscriptionResult where
  text : String
  segments : List TranscriptionSegment
  processingTime : Nat
  modelUsed : String
  audioSeparationUsed : Bool
  deriving DecidableEq

/-- The `result.result` payload of an authoritative token; optional fields
are `none` when absent or JS-falsy where the code tests truthiness. -/
structure PyTransPayload where
  text : Option String
  segments : Option (List TranscriptionSegment)
  processingTime : Option Nat
  modelUsed : Option String
  deriving DecidableEq

/-- A parsed JSON object line: `hasSuccessField` is `'success' in obj`;
`success` is the truthiness of `obj.success` (false when absent);
`result` / `vocalPath` / `error` are the truthy values of `obj.result`,
`obj.vocal_path`, `obj.error` (or `none`). -/
structure PyJson where
  hasSuccessField : Bool
  success : Bool
  result : Option PyTransPayload
  vocalPath : Option String
  error : Option String
  deriving DecidableEq

/-- One newline-delimited stdout token as the backward scan sees it. -/
inductive PyLine
  | skip
  | obj (j : PyJson)
  deriving DecidableEq

/-- What one line contributes to the backward scan: a parsed object with a
`success` field, or nothing. -/
def successTokenOf : PyLine → Option PyJson
  | .obj j => if j.hasSuccessField then some j else none
  | .skip => none

/-- The backward scan of lines 467-484 / 630-646: walk the lines from the
last to the first and return the first (i.e. latest) token carrying a
`success` field. -/
def findLastSuccessJson (lines : List PyLine) : Option PyJson :=
  lines.reverse.findSome? successTokenOf

/-- JS `v || d` for an optional `String`. -/
def jsOrString (v : Option String) (d : String) : String :=
  match v with
  | some s => if s = "" then d else s
  | none => d

/-- Resolution from the authoritative token (lines 670-698): the success
branch when `result.success && result.result` is truthy, else the
explanatory soft-fail record. -/
def transcribeFromToken (model : String) (sepUsed : Bool) (j : PyJson) :
    TranscriptionResult :=
  match j.success, j.result with
  | true, some r =>
      { text := jsOrString r.text "", segments := r.segments.getD [],
        processingTime := jsOrNat r.processingTime 0,
        modelUsed := jsOrString r.modelUsed model,
        audioSeparationUsed := sepUsed }
  | _, _ =>
      { text := jsOrString j.error "文字起こし中に不明なエラーが発生しました。",
        segments := [], processingTime := 0, modelUsed := model,
        audioSeparationUsed := false }

/-- The `close` handler of `transcribeAudio` (lines 602-717). -/
def transcribeOnClose (model : String) (sepUsed : Bool) (code : Int)
    (stdout stderr : String) (lines : List PyLine) : TranscriptionResult :=
  if code ≠ 0 then
    { text := "文字起こしに失敗しました。エラー: " ++ stderr, segments := [],
      processingTime := 0, modelUsed := model, audioSeparationUsed := false }
  else
    match findLastSuccessJson lines with
    | none =>
        { text := "文字起こし結果の形式が不正です。出力データ: " ++ stdout,
          segments := [], processingTime := 0, modelUsed := model,
          audioSeparationUsed := false }
    | some j => transcribeFromToken model sepUsed j

/-- Observable outcome of the recognition subprocess. -/
inductive TransOutcome
  | spawnError (err : String)
  | closed (code : Int) (stdout : String) (lines : List PyLine) (stderr : String)
  deriving DecidableEq

/-- The value `transcribeAudio` resolves with (lines 555-748); the promise
executor only ever calls `resolve`, so the `Except` wrapper below is always
`.ok`. -/
def transcribeAudioRes (model : String) (scriptExists sepUsed : Bool)
    (outcome : TransOutcome) : TranscriptionResult :=
  if ¬ scriptExists then
    { text := "文字起こしスクリプトが見つかりません。Python環境のセットアップを確認してください。",
      segments := [], processingTime := 0, modelUsed := model,
      audioSeparationUsed := false }
  else
    match outcome with
    | .spawnError err =>
        { text := "文字起こしプロセスの起動に失敗しました: " ++ err,
          segments := [], processingTime := 0, modelUsed := model,
          audioSeparationUsed := false }
    | .closed code stdout lines stderr =>
        transcribeOnClose model sepUsed code stdout stderr lines

/-- Method `transcribeAudio` as the caller sees it: resolved value or rejection. -/
def transcribeAudio (model : String) (scriptExists sepUsed : Bool)
    (outcome : TransOutcome) : Except String TranscriptionResult :=
  .ok (transcribeAudioRes model scriptExists sepUsed outcome)

/-- Token resolution for the separation stage (lines 494-519): the vocal
track path when `result.success && result.vocal_path` is truthy and the file
exists, else the original path. -/
def separateFromToken (filePath : String) (fsExists : String → Bool)
    (j : PyJson) : String :=
  match j.success, j.vocalPath with
  | true, some vp => if fsExists vp then vp else filePath
  | _, _ => filePath

/-- The `close` handler of `separateAudio` (lines 425-531). -/
def separateOnClose (filePath : String) (fsExists : String → Bool)
    (code : Int) (lines : List PyLine) : String :=
  if code ≠ 0 then filePath
  else
    match findLastSuccessJson lines with
    | none => filePath
    | some j => separateFromToken filePath fsExists j

/-- Observable outcome of the separation subprocess; `timeout` is the
liveness timer firing. -/
inductive SepOutcome
  | spawnError (err : String)
  | timeout
  | closed (code : Int) (lines : List PyLine)
  deriving DecidableEq

/-- The path `separateAudio` resolves with (lines 349-553); every branch
calls `resolve`, never `reject`. -/
def separateAudioRes (filePath : String) (scriptExists : Bool)
    (fsExists : String → Bool) (outcome : SepOutcome) : String :=
  if ¬ scriptExists then filePath
  else
    match outcome with
    | .spawnError _ => filePath
    | .timeout => filePath
    | .closed code lines => separateOnClose filePath fsExists code lines

/-- Method `separateAudio` as the caller sees it. -/
def separateAudio (filePath : String) (scriptExists : Bool)
    (fsExists : String → Bool) (outcome : SepOutcome) : Except String String :=
  .ok (separateAudioRes filePath scriptExists fsExists outcome)

/-- Method `processAudio` (lines 317-347): optional separation (errors downgraded
to the original file), then transcription (errors downgraded to an
explanatory record). -/
def processAudio (orig model : String) (enableSep sepScript transScript : Bool)
    (fsExists : String → Bool) (sepOut : SepOutcome) (transOut : TransOutcome) :
    TranscriptionResult :=
  let audioFilePath :=
    if enableSep then
      match separateAudio orig sepScript fsExists sepOut with
      | .ok p => p
      | .error _ => orig
    else orig
  match transcribeAudio model transScript (audioFilePath != orig) transOut with
  | .ok r => r
  | .error e =>
      { text := "文字起こし処理中にエラーが発生しました: " ++ e, segments := [],
        processingTime := 0, modelUsed := model,
        audioSeparationUsed := audioFilePath != orig }

/-- Whether a recognition outcome hits the token-success branch: exit code 0
and the latest `success`-field token has truthy `success` and `result`. -/
def isTokenSuccess : TransOutcome → Bool
  | .closed code _ lines _ =>
      code == 0 &&
        (match findLastSuccessJson lines with
         | some j => j.success && j.result.isSome
         | none => false)
  | _ => false

/-- A concrete authoritative token with a full success payload. -/
def okToken : PyJson :=
  { hasSuccessField := true, success := true,
    result := some { text := some "hello world", segments := some [],
                     processingTime := none, modelUsed := none },
    vocalPath := some "/tmp/vocals.wav", error := none }

/-- A concrete valid JSON object line without a `success` field. -/
def noSuccessToken : PyJson :=
  { hasSuccessField := false, success := false, result := none,
    vocalPath := none, error := none }

/-! ## Cloud job poller: `pollJobCompletion`
(`src/main/aws-audio-processing-manager.ts`, lines 416-460), and the
progress events published around it by the cloud `transcribeAudio`
(lines 258-413).

`statusAt k` is the `GetTranscriptionJob` response observed at polling
attempt `k` (the network is abstracted; a rejected request would propagate
and is outside the event model). -/

structure ProgressEvent where
  stage : String
  percent : Nat
  message : String
  deriving DecidableEq

structure JobResponse where
  status : Option String
  failureReason : Option String
  deriving DecidableEq

inductive PollOutcome
  | completed (attempt : Nat) (resp : JobResponse)
  | failed (message : String)
  | timedOut (message : String)
  deriving DecidableEq

/-- JS `Math.round((k / m) * 80)`: round-half-up of the rational `80 * k / m`,
i.e. `⌊(80 * k) / m + 1 / 2⌋ = (160 * k + m) / (2 * m)` in integer
division.  (`80 * k / m` is never a half-integer reached inexactly for the
values in play, so the double-precision evaluation rounds identically.) -/
def jsRound80 (k m : Nat) : Nat := (160 * k + m) / (2 * m)

/-- Line 434: `Math.min(10 + Math.round((attempt / maxAttempts) * 80), 90)`. -/
def pollPercent (m k : Nat) : Nat := min (10 + jsRound80 k m) 90

def pollMessage (p : Nat) : String := "文字起こし処理中: " ++ toString p ++ "%"

/-- The progress event published at polling attempt `k` (lines 434-439). -/
def pollEventAt (m k : Nat) : ProgressEvent :=
  { stage := "processing", percent := pollPercent m k,
    message := pollMessage (pollPercent m k) }

def timeoutMsg (m : Nat) : String :=
  "タイムアウト: " ++ toString m ++ "回試行後も文字起こしジョブが完了しませんでした"

/-- The polling loop of lines 423-459, structurally recursive on the number
of remaining attempts (`fuel = m - attempt` at every call from the wrapper,
so the fuel-exhausted case coincides with the loop condition failing).  Each
attempt publishes its progress event before inspecting the status; COMPLETED
resolves, FAILED throws with the provider's reason (default `不明`), any
other status waits and retries. -/
def pollGo (statusAt : Nat → JobResponse) (m : Nat) :
    Nat → Nat → PollOutcome × List ProgressEvent
  | 0, _ => (.timedOut (timeoutMsg m), [])
  | fuel + 1, attempt =>
    if attempt < m then
      let resp := statusAt attempt
      let ev := pollEventAt m attempt
      if resp.status = some "COMPLETED" then (.completed attempt resp, [ev])
      else if resp.status = some "FAILED" then
        (.failed ("文字起こしジョブが失敗しました: " ++ resp.failureReason.getD "不明"),
         [ev])
      else
        let rest := pollGo statusAt m fuel (attempt + 1)
        (rest.1, ev :: rest.2)
    else (.timedOut (timeoutMsg m), [])

/-- Method `pollJobCompletion(jobName, maxAttempts)`: outcome plus the progress
events it published, attempts numbered from 0. -/
def pollJobCompletion (statusAt : Nat → JobResponse) (m : Nat) :
    PollOutcome × List ProgressEvent :=
  pollGo statusAt m m 0

/-- The `processing`/`complete` events the cloud `transcribeAudio` publishes
around the poll (lines 330-407): a 0% event before polling; on successful
polling a 90% event before the S3 fetch and a 100% event after it (the
fetch-error fallback publishes the same 100% event); on FAILED or timeout
the error propagates and nothing more is published. -/
def cloudStageEvents (statusAt : Nat → JobResponse) (m : Nat) :
    List ProgressEvent :=
  { stage := "processing", percent := 0, message := "文字起こし処理を開始しました" } ::
    (pollJobCompletion statusAt m).2 ++
      (match (pollJobCompletion statusAt m).1 with
       | .completed _ _ =>
           [{ stage := "processing", percent := 90, message := "文字起こし結果を取得中" },
            { stage := "complete", percent := 100, message := "文字起こし完了" }]
       | _ => [])

/-- Demo status stream: queued, then in progress twice, then completed. -/
def demoStatus : Nat → JobResponse
  | 0 => { status := some "QUEUED", failureReason := none }
  | 1 => { status := some "IN_PROGRESS", failureReason := none }
  | 2 => { status := some "IN_PROGRESS", failureReason := none }
  | _ => { status := some "COMPLETED", failureReason := none }

/-! ## Theorems: text chunker -/

theorem jsIndexOfAux_bounds {l : List Char} {ch : Char} {pos : Nat}
    (hne : jsIndexOfAux l ch pos ≠ -1) :
    (pos : Int) ≤ jsIndexOfAux l ch pos ∧
      jsIndexOfAux l ch pos < (pos : Int) + l.length := by
  induction l generalizing pos with
  | nil => simp [jsIndexOfAux] at hne
  | cons a rest ih =>
    by_cases ha : a = ch
    · simp [jsIndexOfAux, ha]
    · simp only [jsIndexOfAux, ha, if_neg, if_false] at hne ⊢
      have := ih hne
      simp only [List.length_cons]
      push_cast at this ⊢
      omega

theorem jsIndexOf_bounds (text : List Char) (ch : Char) (start : Nat)
    (hs : start ≤ text.length) (hne : jsIndexOf text ch start ≠ -1) :
    (start : Int) ≤ jsIndexOf text ch start ∧
      jsIndexOf text ch start < (text.length : Int) := by
  have h := @jsIndexOfAux_bounds (text.drop start) ch start hne
  rw [jsIndexOf] at *
  have hlen : (text.drop start).length = text.length - start := List.length_drop _ _
  rw [hlen] at h
  omega

theorem pickStep_cases (n cur : Int) :
    pickStep n cur = cur ∨ (pickStep n cur = n + 1 ∧ n ≠ -1) := by
  unfold pickStep
  split_ifs with h
  · exact Or.inr ⟨rfl, h.1⟩
  · exact Or.inl rfl

theorem pickSentenceEnd_cases (nS nE nQ : Int) :
    pickSentenceEnd nS nE nQ = -1 ∨
      (pickSentenceEnd nS nE nQ = nS + 1 ∧ nS ≠ -1) ∨
      (pickSentenceEnd nS nE nQ = nE + 1 ∧ nE ≠ -1) ∨
      (pickSentenceEnd nS nE nQ = nQ + 1 ∧ nQ ≠ -1) := by
  unfold pickSentenceEnd
  rcases pickStep_cases nQ (pickStep nE (if nS ≠ -1 then nS + 1 else -1)) with h | h
  · rw [h]
    rcases pickStep_cases nE (if nS ≠ -1 then nS + 1 else -1) with h2 | h2
    · rw [h2]
      split_ifs with h3
      · exact Or.inr (Or.inl ⟨rfl, h3⟩)
      · exact Or.inl rfl
    · exact Or.inr (Or.inr (Or.inl h2))
  · exact Or.inr (Or.inr (Or.inr h))

/-- Core bounds on one step of the chunker: the chosen cut never falls short
of the hard boundary `min (start + chunkSize) text.length`, never overruns
the text, and exceeds the hard boundary by at most `chunkSize / 5`
(rationally; stated here with the scaled comparison). -/
theorem chunkEnd_spec (text : List Char) (chunkSize start : Nat)
    (hs : start < text.length) :
    min (start + chunkSize) text.length ≤ chunkEnd text chunkSize start ∧
      chunkEnd text chunkSize start ≤ text.length ∧
      5 * chunkEnd text chunkSize start ≤
        5 * min (start + chunkSize) text.length + chunkSize := by
  unfold chunkEnd
  by_cases hlt : min (start + chunkSize) text.length < text.length
  · simp only [hlt, if_true]
    set nS := jsIndexOf text '。' (min (start + chunkSize) text.length) with hnS
    set nE := jsIndexOf text '！' (min (start + chunkSize) text.length) with hnE
    set nQ := jsIndexOf text '？' (min (start + chunkSize) text.length) with hnQ
    set se := pickSentenceEnd nS nE nQ with hse
    by_cases hguard : se = -1 ∨ 5 * se > 5 * ((min (start + chunkSize) text.length : Nat) : Int) + (chunkSize : Int)
    · simp only [hguard, if_true]
      omega
    · simp only [hguard, if_false]
      push_neg at hguard
      obtain ⟨hne, hle⟩ := hguard
      have hcases := pickSentenceEnd_cases nS nE nQ
      rw [← hse] at hcases
      have hmin : min (start + chunkSize) text.length ≤ text.length := by omega
      have hbound : ((min (start + chunkSize) text.length : Nat) : Int) + 1 ≤ se ∧
          se ≤ (text.length : Int) := by
        rcases hcases with h | ⟨h, hx⟩ | ⟨h, hx⟩ | ⟨h, hx⟩
        · exact absurd h hne
        · have := jsIndexOf_bounds text '。' (min (start + chunkSize) text.length)
            hmin (by rw [← hnS]; exact hx)
          rw [← hnS] at this; omega
        · have := jsIndexOf_bounds text '！' (min (start + chunkSize) text.length)
            hmin (by rw [← hnE]; exact hx)
          rw [← hnE] at this; omega
        · have := jsIndexOf_bounds text '？' (min (start + chunkSize) text.length)
            hmin (by rw [← hnQ]; exact hx)
          rw [← hnQ] at this; omega
      omega
  · simp only [hlt, if_false]
    omega

theorem splitGo_flatten (text : List Char) (chunkSize : Nat) (hcs : 0 < chunkSize) :
    ∀ fuel start, text.length ≤ start + fuel →
      (splitGo text chunkSize fuel start).flatten = text.drop start := by
  intro fuel
  induction fuel with
  | zero =>
    intro start h
    simp only [splitGo, List.flatten_nil]
    exact (List.drop_eq_nil_of_le (by omega)).symm
  | succ fuel ih =>
    intro start h
    by_cases hs : start < text.length
    · have hspec := chunkEnd_spec text chunkSize start hs
      have hprog : start < chunkEnd text chunkSize start := by omega
      simp only [splitGo, hs, if_true, List.flatten_cons, jsSubstring]
      rw [ih (chunkEnd text chunkSize start) (by omega)]
      have hdd : text.drop (chunkEnd text chunkSize start) =
          (text.drop start).drop (chunkEnd text chunkSize start - start) := by
        rw [List.drop_drop]
        congr 1
        omega
      rw [hdd, List.take_append_drop]
    · simp only [splitGo, hs, if_false, List.flatten_nil]
      exact (List.drop_eq_nil_of_le (by omega)).symm

/-- C1: for every text and positive chunk size, the chunks concatenate back
to the input, and the empty text yields no chunks. -/
theorem splitTextIntoChunks_flatten (text : List Char) (chunkSize : Nat)
    (hcs : 0 < chunkSize) :
    (splitTextIntoChunks text chunkSize).flatten = text ∧
      splitTextIntoChunks ([] : List Char) chunkSize = [] := by
  constructor
  · have := splitGo_flatten text chunkSize hcs (text.length + 1) 0 (by omega)
    simpa [splitTextIntoChunks] using this
  · rfl

/-- Witness for C1 on a concrete input. -/
theorem splitTextIntoChunks_flatten_witness :
    0 < 2 ∧
      ((splitTextIntoChunks ("ab。cd".toList) 2).flatten = "ab。cd".toList ∧
        splitTextIntoChunks ([] : List Char) 2 = []) :=
  ⟨by decide, splitTextIntoChunks_flatten ("ab。cd".toList) 2 (by decide)⟩

theorem splitGo_length_bound (text : List Char) (chunkSize : Nat)
    (hcs : 0 < chunkSize) :
    ∀ fuel start c, c ∈ splitGo text chunkSize fuel start →
      c.length ≤ chunkSize + chunkSize / 5 := by
  intro fuel
  induction fuel with
  | zero => intro start c hc; simp [splitGo] at hc
  | succ fuel ih =>
    intro start c hc
    by_cases hs : start < text.length
    · simp only [splitGo, hs, if_true, List.mem_cons] at hc
      rcases hc with hc | hc
      · have hspec := chunkEnd_spec text chunkSize start hs
        subst hc
        simp only [jsSubstring, List.length_take, List.length_drop]
        have h5 : chunkEnd text chunkSize start - start ≤ chunkSize + chunkSize / 5 := by
          omega
        omega
      · exact ih _ _ hc
    · simp [splitGo, hs] at hc

/-- C8: every chunk produced for a positive `chunkSize` has length at most
`chunkSize + chunkSize / 5` (the look-ahead window, in integer division). -/
theorem splitTextIntoChunks_length_bound (text : List Char) (chunkSize : Nat)
    (hcs : 0 < chunkSize) :
    ∀ c ∈ splitTextIntoChunks text chunkSize, c.length ≤ chunkSize + chunkSize / 5 :=
  fun c hc => splitGo_length_bound text chunkSize hcs _ 0 c hc

/-- Witness for C8 on a concrete input and a concrete chunk of it. -/
theorem splitTextIntoChunks_length_bound_witness :
    0 < 3 ∧ "abc".toList ∈ splitTextIntoChunks ("abcdefg！hi".toList) 3 ∧
      ("abc".toList).length ≤ 3 + 3 / 5 :=
  ⟨by decide, by decide,
   splitTextIntoChunks_length_bound ("abcdefg！hi".toList) 3 (by decide)
     ("abc".toList) (by decide)⟩

/-! ## Theorems: hierarchical text processor -/

/-- C5 counterexample: at exactly 30000 characters (the claim says "at or
above the threshold") `summarizeText` performs one plain direct call — the
chunker is never invoked and `modelUsed` carries no chunked-processing
label, because the source guard is the strict `text.length > 30000`. -/
theorem summarize_at_threshold_no_chunking :
    (summarizeText (fun _ _ => []) "" "" none boundaryText .medium).2 =
      [TraceEv.directCall boundaryText .medium] ∧
    (summarizeText (fun _ _ => []) "" "" none boundaryText .medium).1.modelUsed =
      "Amazon Bedrock (" ++ defaultModelId ++ ")" := by
  have hlen : boundaryText.length = 30000 := by
    rw [boundaryText, List.length_replicate]
  constructor <;>
    simp [summarizeText, summarizeWithBedrockDirect, hlen]

/-- C5 (amended): chunked processing happens exactly for texts strictly
longer than 30000 characters; then the chunker is invoked and `modelUsed`
carries the chunked label.  At or below 30000 the chunker is never invoked. -/
theorem chunking_threshold_strict (oracle : Oracle) (agentId agentAliasId : String)
    (agentOutcome : Option (List Char)) (text : List Char)
    (len : SummarizationLength) :
    (30000 < text.length →
      TraceEv.splitCall text 25000 ∈
        (summarizeText oracle agentId agentAliasId agentOutcome text len).2 ∧
      (summarizeText oracle agentId agentAliasId agentOutcome text len).1.modelUsed =
        "Amazon Bedrock (" ++ defaultModelId ++ ")" ++ chunkedLabel) ∧
    (text.length ≤ 30000 →
      ∀ t cs, TraceEv.splitCall t cs ∉
        (summarizeText oracle agentId agentAliasId agentOutcome text len).2) := by
  constructor
  · intro hbig
    have hnotsmall : ¬ text.length < 30000 := by omega
    simp [summarizeText, hbig, processLargeText, hnotsmall,
      summarizeWithBedrockDirect]
  · intro hsmall
    have hnotbig : ¬ 30000 < text.length := by omega
    intro t cs
    simp only [summarizeText, hnotbig, if_false]
    split_ifs with hagent
    · match agentOutcome with
      | some resp => simp
      | none => simp [summarizeWithBedrockDirect]
    · simp [summarizeWithBedrockDirect]

/-- Witness for the amended C5: both sides exercised on concrete inputs. -/
theorem chunking_threshold_strict_witness :
    (TraceEv.splitCall (List.replicate 30001 'a') 25000 ∈
      (summarizeText (fun _ _ => []) "" "" none (List.replicate 30001 'a') .medium).2 ∧
      (summarizeText (fun _ _ => []) "" "" none (List.replicate 30001 'a') .medium).1.modelUsed =
        "Amazon Bedrock (" ++ defaultModelId ++ ")" ++ chunkedLabel) ∧
    TraceEv.splitCall (List.replicate 5 'a') 25000 ∉
      (summarizeText (fun _ _ => []) "" "" none (List.replicate 5 'a') .medium).2 :=
  ⟨(chunking_threshold_strict (fun _ _ => []) "" "" none
      (List.replicate 30001 'a') .medium).1
      (by rw [List.length_replicate]; omega),
   (chunking_threshold_strict (fun _ _ => []) "" "" none
      (List.replicate 5 'a') .medium).2
      (by rw [List.length_replicate]; omega) (List.replicate 5 'a') 25000⟩

theorem splitGo_succ (text : List Char) (chunkSize fuel start : Nat) :
    splitGo text chunkSize (fuel + 1) start =
      if start < text.length then
        jsSubstring text start (chunkEnd text chunkSize start) ::
          splitGo text chunkSize fuel (chunkEnd text chunkSize start)
      else [] := rfl

theorem chunkEnd_eq_end (text : List Char) (chunkSize start : Nat)
    (h : text.length ≤ start + chunkSize) :
    chunkEnd text chunkSize start = text.length := by
  unfold chunkEnd
  have hmin : min (start + chunkSize) text.length = text.length := by omega
  simp [hmin]

/-- Every 40000-character text splits into exactly two chunks at size 25000:
the first cut lands in `[25000, 30000]`, after which fewer than 25000
characters remain. -/
theorem splitTextIntoChunks_two (text : List Char) (h : text.length = 40000) :
    splitTextIntoChunks text 25000 =
      [jsSubstring text 0 (chunkEnd text 25000 0),
       jsSubstring text (chunkEnd text 25000 0) text.length] := by
  have h0 : (0 : Nat) < text.length := by omega
  have hspec := chunkEnd_spec text 25000 0 h0
  have he1 : 25000 ≤ chunkEnd text 25000 0 ∧ chunkEnd text 25000 0 ≤ 30000 := by
    omega
  have he2 : chunkEnd text 25000 (chunkEnd text 25000 0) = text.length :=
    chunkEnd_eq_end text 25000 (chunkEnd text 25000 0) (by omega)
  unfold splitTextIntoChunks
  rw [h]
  rw [show (40000 + 1 : Nat) = 39999 + 1 + 1 by norm_num]
  rw [splitGo_succ, if_pos (by omega), splitGo_succ, if_pos (by omega), he2]
  rw [show (39999 : Nat) = 39998 + 1 by norm_num]
  rw [splitGo_succ, if_neg (by omega), h]

/-- C6: a 40000-character input to `summarizeText` is split into exactly two
chunks, and the backend is invoked exactly three times: once per chunk with
the SHORT length, then once on the combined chunk summaries with the
requested length. -/
theorem forty_k_three_backend_calls (oracle : Oracle)
    (agentId agentAliasId : String) (agentOutcome : Option (List Char))
    (len : SummarizationLength) (text : List Char) (h : text.length = 40000) :
    (splitTextIntoChunks text 25000).length = 2 ∧
      (summarizeText oracle agentId agentAliasId agentOutcome text len).2 =
        [TraceEv.splitCall text 25000,
         TraceEv.directCall (jsSubstring text 0 (chunkEnd text 25000 0)) .short,
         TraceEv.directCall (jsSubstring text (chunkEnd text 25000 0) text.length) .short,
         TraceEv.directCall (combinedLead ++
           List.intercalate chunkSummarySep
             [oracle (jsSubstring text 0 (chunkEnd text 25000 0)) .short,
              oracle (jsSubstring text (chunkEnd text 25000 0) text.length) .short]) len] := by
  have hbig : 30000 < text.length := by omega
  have hnotsmall : ¬ text.length < 30000 := by omega
  refine ⟨by rw [splitTextIntoChunks_two text h]; rfl, ?_⟩
  simp [summarizeText, hbig, processLargeText, hnotsmall,
    splitTextIntoChunks_two text h, summarizeWithBedrockDirect]

/-- Witness for C6 at a concrete 40000-character input. -/
theorem forty_k_three_backend_calls_witness :
    (splitTextIntoChunks (List.replicate 40000 'a') 25000).length = 2 ∧
      (summarizeText (fun _ _ => []) "" "" none (List.replicate 40000 'a') .medium).2 =
        [TraceEv.splitCall (List.replicate 40000 'a') 25000,
         TraceEv.directCall
           (jsSubstring (List.replicate 40000 'a') 0
             (chunkEnd (List.replicate 40000 'a') 25000 0)) .short,
         TraceEv.directCall
           (jsSubstring (List.replicate 40000 'a')
             (chunkEnd (List.replicate 40000 'a') 25000 0)
             (List.replicate 40000 'a').length) .short,
         TraceEv.directCall (combinedLead ++
           List.intercalate chunkSummarySep [[], []]) .medium] := by
  have h := forty_k_three_backend_calls (fun _ _ => []) "" "" none .medium
    (List.replicate 40000 'a') (by rw [List.length_replicate])
  exact h

/-! ## Theorems: Bedrock payload shapes -/

/-- C7 counterexample: the request body is `messages`-shaped even for model
identifiers of legacy prompt/completion models (`anthropic.claude-v2`,
`amazon.titan-text-express-v1`), exactly as for the default Claude 3.7
identifier — the shape does not vary with the model identifier at all. -/
theorem request_shape_ignores_model :
    shapeOf (summarizeRequestBody "anthropic.claude-v2" []) = .messages ∧
    shapeOf (summarizeRequestBody defaultModelId []) = .messages ∧
    shapeOf (weeklyReportRequestBody "amazon.titan-text-express-v1" none []) =
      .messages :=
  ⟨rfl, rfl, rfl⟩

/-- C7 (amended): both direct callers always send the structured `messages`
payload, whatever model identifier is configured; the two shapes are
supported only on the response side, where extraction prefers
`content[0].text` and falls back to the legacy `completion` field according
to the response's own fields. -/
theorem request_shape_constant (modelId : String) (maxTokens : Option Nat)
    (prompt : List Char) :
    shapeOf (summarizeRequestBody modelId prompt) = .messages ∧
    shapeOf (weeklyReportRequestBody modelId maxTokens prompt) = .messages ∧
    (∀ c rest comp, extractSummary ⟨some (c :: rest), comp⟩ = c.text) ∧
    (∀ s, s ≠ [] → extractSummary ⟨none, some s⟩ = s) ∧
    (∀ c rest comp, extractReport ⟨some (c :: rest), comp⟩ = c.text) ∧
    (∀ s, s ≠ [] → extractReport ⟨none, some s⟩ = s) := by
  refine ⟨rfl, rfl, fun c rest comp => rfl, fun s hs => ?_,
    fun c rest comp => rfl, fun s hs => ?_⟩ <;>
    simp [extractSummary, extractReport, jsOrChars, hs]

/-- Witness for the amended C7 at concrete inputs. -/
theorem request_shape_constant_witness :
    extractSummary ⟨none, some ['o', 'k']⟩ = ['o', 'k'] ∧
    extractReport ⟨none, some ['o', 'k']⟩ = ['o', 'k'] :=
  ⟨(request_shape_constant "anthropic.claude-v2" none []).2.2.2.1
      ['o', 'k'] (by decide),
   (request_shape_constant "anthropic.claude-v2" none []).2.2.2.2.2
      ['o', 'k'] (by decide)⟩

/-! ## Theorems: local pipeline process runner -/

theorem findSome?_append_of_none {α β : Type} {f : α → Option β}
    {l1 l2 : List α} (h : ∀ a ∈ l1, f a = none) :
    (l1 ++ l2).findSome? f = l2.findSome? f := by
  induction l1 with
  | nil => rfl
  | cons a l ih =>
    have ha : f a = none := h a (by simp)
    simp only [List.cons_append, List.findSome?_cons, ha]
    exact ih fun b hb => h b (by simp [hb])

theorem findLastSuccessJson_last_qualifying (pre post : List PyLine)
    (j : PyJson) (hj : j.hasSuccessField = true)
    (hpost : ∀ l ∈ post, successTokenOf l = none) :
    findLastSuccessJson (pre ++ PyLine.obj j :: post) = some j := by
  unfold findLastSuccessJson
  rw [List.reverse_append, List.reverse_cons]
  rw [List.append_assoc]
  rw [findSome?_append_of_none (fun a ha => hpost a (List.mem_reverse.mp ha))]
  simp [List.findSome?_cons, successTokenOf, hj]

/-- C2: with exit code 0, when the stream contains an authoritative token
(a JSON object line with a `success` field) after which no further line
qualifies, both stage runners resolve from exactly that token — whatever
other lines (including valid JSON objects without a `success` field)
precede it. -/
theorem runner_resolves_from_last_token (model fp : String) (sepUsed : Bool)
    (fsEx : String → Bool) (stdout stderr : String)
    (pre post : List PyLine) (j : PyJson)
    (hj : j.hasSuccessField = true)
    (hpost : ∀ l ∈ post, successTokenOf l = none) :
    findLastSuccessJson (pre ++ PyLine.obj j :: post) = some j ∧
    transcribeOnClose model sepUsed 0 stdout stderr (pre ++ PyLine.obj j :: post) =
      transcribeFromToken model sepUsed j ∧
    separateOnClose fp fsEx 0 (pre ++ PyLine.obj j :: post) =
      separateFromToken fp fsEx j := by
  have hfind := findLastSuccessJson_last_qualifying pre post j hj hpost
  refine ⟨hfind, ?_, ?_⟩ <;>
    simp [transcribeOnClose, separateOnClose, hfind]

/-- Witness for C2: a progress-looking JSON line and a blank line around the
authoritative token. -/
theorem runner_resolves_from_last_token_witness :
    findLastSuccessJson ([PyLine.obj noSuccessToken] ++ PyLine.obj okToken :: [PyLine.skip]) =
      some okToken ∧
    transcribeOnClose "faster-whisper-small" false 0 "raw" ""
        ([PyLine.obj noSuccessToken] ++ PyLine.obj okToken :: [PyLine.skip]) =
      transcribeFromToken "faster-whisper-small" false okToken ∧
    separateOnClose "/in.wav" (fun _ => true) 0
        ([PyLine.obj noSuccessToken] ++ PyLine.obj okToken :: [PyLine.skip]) =
      separateFromToken "/in.wav" (fun _ => true) okToken :=
  runner_resolves_from_last_token "faster-whisper-small" "/in.wav" false
    (fun _ => true) "raw" "" [PyLine.obj noSuccessToken] [PyLine.skip] okToken
    (by decide) (by decide)

/-- C3 counterexample: the stream holds an authoritative success token, yet
with exit code 1 the recognition runner resolves the failure record instead
of the token's payload, and the separation runner falls back to the original
path — the same lines with exit code 0 resolve from the token. -/
theorem nonzero_exit_discards_token :
    transcribeOnClose "m" false 1 "raw" "boom" [PyLine.obj okToken] =
      { text := "文字起こしに失敗しました。エラー: boom", segments := [],
        processingTime := 0, modelUsed := "m", audioSeparationUsed := false } ∧
    transcribeFromToken "m" false okToken =
      { text := "hello world", segments := [], processingTime := 0,
        modelUsed := "m", audioSeparationUsed := false } ∧
    separateOnClose "/in.wav" (fun _ => true) 1 [PyLine.obj okToken] = "/in.wav" ∧
    separateOnClose "/in.wav" (fun _ => true) 0 [PyLine.obj okToken] =
      "/tmp/vocals.wav" := by
  refine ⟨by decide, by decide, by decide, by decide⟩

/-- C3 (amended): a non-zero exit code always takes the failure path, before
and regardless of any token scan: recognition resolves the explanatory
failure record built from stderr, separation resolves the original path. -/
theorem nonzero_exit_failure_path (model fp : String) (sepUsed : Bool)
    (fsEx : String → Bool) (code : Int) (hc : code ≠ 0)
    (stdout stderr : String) (lines : List PyLine) :
    transcribeOnClose model sepUsed code stdout stderr lines =
      { text := "文字起こしに失敗しました。エラー: " ++ stderr, segments := [],
        processingTime := 0, modelUsed := model, audioSeparationUsed := false } ∧
    separateOnClose fp fsEx code lines = fp := by
  constructor <;> simp [transcribeOnClose, separateOnClose, hc]

/-- Witness for the amended C3 at exit code 2. -/
theorem nonzero_exit_failure_path_witness :
    transcribeOnClose "m" true 2 "raw" "err" [PyLine.obj okToken] =
      { text := "文字起こしに失敗しました。エラー: err", segments := [],
        processingTime := 0, modelUsed := "m", audioSeparationUsed := false } ∧
    separateOnClose "/in.wav" (fun _ => false) 2 [PyLine.obj okToken] = "/in.wav" :=
  nonzero_exit_failure_path "m" "/in.wav" true (fun _ => false) 2 (by decide)
    "raw" "err" [PyLine.obj okToken]

/-- C4 counterexample: on a spawn failure the recognition stage does not
reject (hard-error); it resolves — like the separation stage — with a
substitute explanatory result. -/
theorem transcribe_spawn_error_resolves :
    transcribeAudio "faster-whisper-small" true false
        (.spawnError "Error: spawn python ENOENT") =
      .ok { text := "文字起こしプロセスの起動に失敗しました: Error: spawn python ENOENT",
            segments := [], processingTime := 0,
            modelUsed := "faster-whisper-small", audioSeparationUsed := false } :=
  rfl

/-- C4 (amended): a process-spawn failure soft-fails in both stages: the
separation stage resolves with the original input path unchanged, and the
recognition stage also resolves (never rejects) with an explanatory
transcript carrying empty segments. -/
theorem spawn_failure_soft_resolution (fp model err : String)
    (fsEx : String → Bool) (sepUsed : Bool) :
    separateAudio fp true fsEx (.spawnError err) = .ok fp ∧
    transcribeAudio model true sepUsed (.spawnError err) =
      .ok { text := "文字起こしプロセスの起動に失敗しました: " ++ err,
            segments := [], processingTime := 0, modelUsed := model,
            audioSeparationUsed := false } :=
  ⟨rfl, rfl⟩

/-- C10 counterexample: a fully successful run whose payload carries an
empty `segments` array (and no `processingTime`) resolves with empty
segments and time 0, so those fields do not distinguish a soft-fail result
from a successful transcription. -/
theorem success_with_empty_segments :
    isTokenSuccess (.closed 0 "" [PyLine.obj okToken] "") = true ∧
    transcribeAudio "m" true false (.closed 0 "" [PyLine.obj okToken] "") =
      .ok { text := "hello world", segments := [], processingTime := 0,
            modelUsed := "m", audioSeparationUsed := false } :=
  ⟨by decide, rfl⟩

/-- C10 (amended): every branch of the local pipeline other than the
token-success branch — script missing, spawn failure, non-zero exit, no
authoritative token, or token without truthy `success`/`result` — resolves
a record with empty segments and `processingTime` 0, both in
`transcribeAudio` and through `processAudio`. -/
theorem soft_fail_empty_segments (orig model : String)
    (enableSep sepScript transScript sepUsed : Bool)
    (fsEx : String → Bool) (sepOut : SepOutcome) (outcome : TransOutcome)
    (hfail : transScript = false ∨ isTokenSuccess outcome = false) :
    (transcribeAudioRes model transScript sepUsed outcome).segments = [] ∧
    (transcribeAudioRes model transScript sepUsed outcome).processingTime = 0 ∧
    (processAudio orig model enableSep sepScript transScript fsEx sepOut outcome).segments = [] ∧
    (processAudio orig model enableSep sepScript transScript fsEx sepOut outcome).processingTime = 0 := by
  have core : ∀ su : Bool, (transcribeAudioRes model transScript su outcome).segments = [] ∧
      (transcribeAudioRes model transScript su outcome).processingTime = 0 := by
    intro su
    rcases hfail with hf | hf
    · subst hf
      simp [transcribeAudioRes]
    · cases transScript with
      | false => simp [transcribeAudioRes]
      | true =>
        cases outcome with
        | spawnError err => simp [transcribeAudioRes]
        | closed code stdout lines stderr =>
          simp only [transcribeAudioRes, Bool.not_true, if_neg, ite_false]
          simp only [isTokenSuccess] at hf
          unfold transcribeOnClose
          by_cases hcode : code ≠ 0
          · simp [hcode]
          · push_neg at hcode
            subst hcode
            simp only [ne_eq, not_true_eq_false, if_false, if_neg]
            cases hfind : findLastSuccessJson lines with
            | none => simp
            | some j =>
              rw [hfind] at hf
              simp only [beq_self_eq_true, Bool.true_and] at hf
              unfold transcribeFromToken
              obtain ⟨hsf, succ, res, vp, er⟩ := j
              cases succ <;> cases res <;> simp_all

  have hpa : processAudio orig model enableSep sepScript transScript fsEx sepOut outcome =
      transcribeAudioRes model transScript
        ((if enableSep then separateAudioRes orig sepScript fsEx sepOut else orig) != orig)
        outcome := rfl
  exact ⟨(core sepUsed).1, (core sepUsed).2, by rw [hpa]; exact (core _).1,
    by rw [hpa]; exact (core _).2⟩

/-- Witness for the amended C10 at a spawn-failure outcome. -/
theorem soft_fail_empty_segments_witness :
    (transcribeAudioRes "m" true false (.spawnError "ENOENT")).segments = [] ∧
    (transcribeAudioRes "m" true false (.spawnError "ENOENT")).processingTime = 0 ∧
    (processAudio "/in.wav" "m" false true true (fun _ => true) .timeout
      (.spawnError "ENOENT")).segments = [] ∧
    (processAudio "/in.wav" "m" false true true (fun _ => true) .timeout
      (.spawnError "ENOENT")).processingTime = 0 :=
  soft_fail_empty_segments "/in.wav" "m" false true true false (fun _ => true)
    .timeout (.spawnError "ENOENT") (Or.inr (by decide))

/-! ## Theorems: cloud job poller -/

theorem pollGo_events (statusAt : Nat → JobResponse) (m : Nat) :
    ∀ fuel attempt, ∃ cnt, (pollGo statusAt m fuel attempt).2 =
      (List.range' attempt cnt).map (pollEventAt m) := by
  intro fuel
  induction fuel with
  | zero => intro attempt; exact ⟨0, rfl⟩
  | succ fuel ih =>
    intro attempt
    by_cases ha : attempt < m
    · by_cases hc : (statusAt attempt).status = some "COMPLETED"
      · exact ⟨1, by simp [pollGo, ha, hc]⟩
      · by_cases hf2 : (statusAt attempt).status = some "FAILED"
        · exact ⟨1, by simp [pollGo, ha, hc, hf2]⟩
        · obtain ⟨cnt, hcnt⟩ := ih (attempt + 1)
          refine ⟨cnt + 1, ?_⟩
          simp [pollGo, ha, hc, hf2, hcnt, List.range'_succ]
    · exact ⟨0, by simp [pollGo, ha]⟩

theorem pollPercent_mono (m k : Nat) : pollPercent m k ≤ pollPercent m (k + 1) := by
  unfold pollPercent jsRound80
  have h : (160 * k + m) / (2 * m) ≤ (160 * (k + 1) + m) / (2 * m) :=
    Nat.div_le_div_right (by omega)
  omega

theorem chain'_pollPercent (m : Nat) :
    ∀ n s, List.Chain' (fun a b => a.percent ≤ b.percent)
      ((List.range' s n).map (pollEventAt m)) := by
  intro n
  induction n with
  | zero => intro s; simp
  | succ n ih =>
    intro s
    rw [List.range'_succ]
    cases n with
    | zero => simp
    | succ k =>
      rw [List.range'_succ]
      simp only [List.map_cons]
      rw [List.chain'_cons]
      refine ⟨pollPercent_mono m s, ?_⟩
      have := ih (s + 1)
      rw [List.range'_succ] at this
      simpa using this

theorem pollGo_events_get (statusAt : Nat → JobResponse) (m : Nat) :
    ∀ fuel attempt k ev, ((pollGo statusAt m fuel attempt).2)[k]? = some ev →
      ev = pollEventAt m (attempt + k) := by
  intro fuel
  induction fuel with
  | zero => intro attempt k ev h; simp [pollGo] at h
  | succ fuel ih =>
    intro attempt k ev h
    by_cases ha : attempt < m
    · by_cases hc : (statusAt attempt).status = some "COMPLETED"
      · simp only [pollGo, ha, if_true, hc] at h
        cases k with
        | zero =>
          simp only [List.getElem?_cons_zero, Option.some_inj] at h
          rw [Nat.add_zero]
          exact h.symm
        | succ k => simp at h
      · by_cases hf2 : (statusAt attempt).status = some "FAILED"
        · have hne : ¬(("FAILED" : String) = "COMPLETED") := by decide
          simp only [pollGo, ha, if_true, hc, if_false, hf2, Option.some_inj,
            hne] at h
          cases k with
          | zero =>
            simp only [List.getElem?_cons_zero, Option.some_inj] at h
            rw [Nat.add_zero]
            exact h.symm
          | succ k => simp at h
        · simp only [pollGo, ha, if_true, hc, hf2, if_false] at h
          cases k with
          | zero =>
            simp only [List.getElem?_cons_zero, Option.some_inj] at h
            rw [Nat.add_zero]
            exact h.symm
          | succ k =>
            simp only [List.getElem?_cons_succ] at h
            have hr := ih (attempt + 1) k ev h
            rw [hr]
            congr 1
            omega
    · simp [pollGo, ha] at h

theorem getLast?_cons_append_two {α : Type} (l : List α) (c a b : α) :
    (c :: l ++ [a, b]).getLast? = some b := by
  have h : c :: l ++ [a, b] = (c :: l ++ [a]) ++ [b] := by simp
  rw [h, List.getLast?_concat]

/-- C9: the percent published at polling attempt `k` is
`min (10 + round((k / maxAttempts) * 80), 90)` (with `round(80k/m)` written
as `(160k + m) / (2m)` in integer division); the polling percents are
non-decreasing and never exceed 90; and in the whole cloud recognition event
stream an event carries percent 100 only as the final event, published after
the result fetch of a successfully completed poll. -/
theorem pollJobCompletion_progress (statusAt : Nat → JobResponse) (m : Nat) :
    (∀ k ev, ((pollJobCompletion statusAt m).2)[k]? = some ev →
        ev.percent = min (10 + (160 * k + m) / (2 * m)) 90) ∧
    List.Chain' (fun a b => a.percent ≤ b.percent) (pollJobCompletion statusAt m).2 ∧
    (∀ ev ∈ (pollJobCompletion statusAt m).2, ev.percent ≤ 90) ∧
    (∀ ev ∈ cloudStageEvents statusAt m, ev.percent = 100 →
      (∃ a r, (pollJobCompletion statusAt m).1 = PollOutcome.completed a r) ∧
      (cloudStageEvents statusAt m).getLast? = some ev) := by
  obtain ⟨cnt, hev⟩ := pollGo_events statusAt m m 0
  have hle90 : ∀ ev ∈ (pollJobCompletion statusAt m).2, ev.percent ≤ 90 := by
    intro ev hmem
    rw [show (pollJobCompletion statusAt m).2 = _ from hev] at hmem
    obtain ⟨k, hk, rfl⟩ := List.mem_map.mp hmem
    simp [pollEventAt, pollPercent]
  refine ⟨?_, ?_, hle90, ?_⟩
  · intro k ev hg
    have hx := pollGo_events_get statusAt m m 0 k ev hg
    rw [Nat.zero_add] at hx
    rw [hx]
    rfl
  · rw [show (pollJobCompletion statusAt m).2 = _ from hev]
    exact chain'_pollPercent m cnt 0
  · intro ev hmem h100
    unfold cloudStageEvents at hmem ⊢
    cases hout : (pollJobCompletion statusAt m).1 with
    | completed a r =>
      rw [hout] at hmem
      simp at hmem
      rcases hmem with rfl | hmem | rfl | rfl
      · simp at h100
      · have := hle90 ev hmem
        omega
      · simp at h100
      · exact ⟨⟨a, r, rfl⟩, getLast?_cons_append_two _ _ _ _⟩
    | failed msg =>
      rw [hout] at hmem
      simp at hmem
      rcases hmem with rfl | hmem
      · simp at h100
      · have := hle90 ev hmem
        omega
    | timedOut msg =>
      rw [hout] at hmem
      simp at hmem
      rcases hmem with rfl | hmem
      · simp at h100
      · have := hle90 ev hmem
        omega

/-- Witness for C9 on the demo status stream (queued, in progress twice,
completed) with the default 60-attempt budget, read at attempt 2:
`round((2/60)*80) = 3`, so 13% is published. -/
theorem pollJobCompletion_progress_witness :
    ((pollJobCompletion demoStatus 60).2)[2]? =
      some { stage := "processing", percent := 13, message := "文字起こし処理中: 13%" } ∧
    ({ stage := "processing", percent := 13, message := "文字起こし処理中: 13%" } :
        ProgressEvent).percent = min (10 + (160 * 2 + 60) / (2 * 60)) 90 := by
  have h1 : ((pollJobCompletion demoStatus 60).2)[2]? =
      some { stage := "processing", percent := 13, message := "文字起こし処理中: 13%" } := by
    decide
  exact ⟨h1, (pollJobCompletion_progress demoStatus 60).1 2 _ h1⟩

end Transcribe2
